import Mathlib

/-!
Verification of the CreditReview frontend's edit-overlay and value-resolution
layer (`App.tsx` `handleValueChange` / `handleResetValue`, the
`getCurrentValue` / `getPriorValue` resolvers, `isEdited`, and the editing
commit handlers `handleBlur` / `finishEditing`).

JavaScript numbers are modelled as rationals; a field that may be `undefined`
is modelled as an `Option`.  A `Record<string, T>` is modelled as a function
`String → Option T` (entry absent = `none`); `parseFloat` is modelled
abstractly as a function `String → Option ℚ` whose `none` result stands for
`NaN`.
-/

/-- Raw extracted line item (the fields the resolution layer reads).
From `api/client.ts` / usage in `ReviewTable` and the statement tables. -/
structure ExtractedValue where
  metric_key : String
  value : ℚ
  value_prior : ℚ
deriving DecidableEq

/-- Overlay entry: `{ metric_key, value?, value_prior? }`.  A field holding
`none` models the field being absent or set to `undefined` (the code only
ever tests fields with `!== undefined`, so the two are interchangeable at
the field level; entry presence in the map is tracked separately). -/
structure EditedValue where
  metric_key : String
  value : Option ℚ := none
  value_prior : Option ℚ := none
deriving DecidableEq

/-- `Record<string, ExtractedValue>` — the immutable raw-value map. -/
abbrev RawValues := String → Option ExtractedValue

/-- `Record<string, EditedValue>` — the mutable edit overlay. -/
abbrev EditedValues := String → Option EditedValue

/-- `App.tsx` `handleValueChange`: field-wise functional update of the entry
for `metricKey`, creating `{ metric_key: metricKey }` when absent.  Passing
`none` for `v` models the call `onValueChange(key, undefined, isPrior)`. -/
def handleValueChange (metricKey : String) (v : Option ℚ) (isPrior : Bool)
    (prev : EditedValues) : EditedValues :=
  let existing := (prev metricKey).getD { metric_key := metricKey }
  let updated := if isPrior then { existing with value_prior := v }
                 else { existing with value := v }
  fun k => if k = metricKey then some updated else prev k

/-- `App.tsx` `handleResetValue`: deletes one period's field of the entry;
returns `prev` unchanged when no entry exists; removes the entry entirely
when both fields end up undefined. -/
def handleResetValue (metricKey : String) (isPrior : Bool)
    (prev : EditedValues) : EditedValues :=
  match prev metricKey with
  | none => prev
  | some existing =>
    let updated := if isPrior then { existing with value_prior := none }
                   else { existing with value := none }
    if updated.value = none ∧ updated.value_prior = none then
      fun k => if k = metricKey then none else prev k
    else
      fun k => if k = metricKey then some updated else prev k

/-- Resolver for the current period
(`edited?.value !== undefined ? edited.value : rawValues[k]?.value ?? 0`). -/
def getCurrentValue (editedValues : EditedValues) (rawValues : RawValues)
    (metricKey : String) : ℚ :=
  match (editedValues metricKey).bind EditedValue.value with
  | some v => v
  | none => ((rawValues metricKey).map ExtractedValue.value).getD 0

/-- Resolver for the prior period. -/
def getPriorValue (editedValues : EditedValues) (rawValues : RawValues)
    (metricKey : String) : ℚ :=
  match (editedValues metricKey).bind EditedValue.value_prior with
  | some v => v
  | none => ((rawValues metricKey).map ExtractedValue.value_prior).getD 0

/-- The overlay override in force for `(metricKey, period)`: the entry's
period field when an entry exists, `none` otherwise. -/
def getOverrideField (editedValues : EditedValues) (metricKey : String)
    (isPrior : Bool) : Option ℚ :=
  (editedValues metricKey).bind
    (fun e => if isPrior then e.value_prior else e.value)

/-- `ReviewTable.tsx` `isEdited`: guarded on entry existence and raw-record
existence, then true iff the period's override field is defined and differs
from the raw value. -/
def isEdited (editedValues : EditedValues) (rawValues : RawValues)
    (metricKey : String) (isPrior : Bool) : Bool :=
  match editedValues metricKey with
  | none => false
  | some edited =>
    match rawValues metricKey with
    | none => false
    | some original =>
      if isPrior then
        match edited.value_prior with
        | none => false
        | some vp => decide (vp ≠ original.value_prior)
      else
        match edited.value with
        | none => false
        | some v => decide (v ≠ original.value)

/-- `EditableCell.handleBlur` (financial-statements table): commit on blur.
Sets the override when the input parses and differs from the original; clears
the field (passes `undefined`) when the input is empty or parses equal to the
original; otherwise (non-numeric, non-empty) does nothing.  `parseF` models
`parseFloat`, with `none` for `NaN`. -/
def handleBlur (parseF : String → Option ℚ) (inputVal : String)
    (originalValue : ℚ) (metricKey : String) (isPrior : Bool)
    (prev : EditedValues) : EditedValues :=
  match parseF inputVal with
  | some parsed =>
    if parsed ≠ originalValue then
      handleValueChange metricKey (some parsed) isPrior prev
    else
      handleValueChange metricKey none isPrior prev
  | none =>
    if inputVal = "" then handleValueChange metricKey none isPrior prev
    else prev

/-- `ReviewTable.finishEditing`: commit the typed text; only a successfully
parsed number is written, a `NaN` parse leaves the overlay untouched. -/
def finishEditing (parseF : String → Option ℚ) (editValue : String)
    (metricKey : String) (isPrior : Bool) (prev : EditedValues) : EditedValues :=
  match parseF editValue with
  | some newValue => handleValueChange metricKey (some newValue) isPrior prev
  | none => prev

/-- The empty overlay (no entries). -/
def emptyOverlay : EditedValues := fun _ => none

/-- A parse function that fails on every input, as `parseFloat` does on `""`
and on any non-numeric text. -/
def parseNone : String → Option ℚ := fun _ => none

/-- A one-entry overlay with both period overrides set for key `cash`. -/
def overlayBoth : EditedValues :=
  fun k => if k = "cash" then some { metric_key := "cash", value := some 1, value_prior := some 2 } else none

/-- A raw-value map holding a single record for key `cash`. -/
def rawCash : RawValues :=
  fun k => if k = "cash" then some { metric_key := "cash", value := 5, value_prior := 7 } else none

/-- An overlay holding one entry for `cash` with only the current-period
override set. -/
def overlayCurOnly : EditedValues :=
  fun k => if k = "cash" then some { metric_key := "cash", value := some 1 } else none

/-- A raw-value map with no records at all. -/
def emptyRaw : RawValues := fun _ => none

/-- A parse function recognising exactly the text `5`. -/
def parseFive : String → Option ℚ := fun s => if s = "5" then some 5 else none

lemma valueChange_sets_field (ed : EditedValues) (k : String) (v : Option ℚ)
    (isPrior : Bool) :
    getOverrideField (handleValueChange k v isPrior ed) k isPrior = v := by
  unfold getOverrideField handleValueChange
  cases isPrior <;> simp

lemma reset_clears_field (ed : EditedValues) (k : String) (isPrior : Bool) :
    getOverrideField (handleResetValue k isPrior ed) k isPrior = none := by
  unfold getOverrideField handleResetValue
  cases h1 : ed k with
  | none => simp [h1]
  | some e => cases isPrior <;> simp <;> split <;> simp

lemma getCurrentValue_no_override (ed : EditedValues) (raw : RawValues)
    (k : String) (r : ExtractedValue)
    (h : getOverrideField ed k false = none) (hr : raw k = some r) :
    getCurrentValue ed raw k = r.value := by
  unfold getOverrideField at h
  unfold getCurrentValue
  cases h1 : ed k with
  | none => simp [h1, hr]
  | some e =>
    rw [h1] at h
    simp at h
    simp [h1, h, hr]

lemma getPriorValue_no_override (ed : EditedValues) (raw : RawValues)
    (k : String) (r : ExtractedValue)
    (h : getOverrideField ed k true = none) (hr : raw k = some r) :
    getPriorValue ed raw k = r.value_prior := by
  unfold getOverrideField at h
  unfold getPriorValue
  cases h1 : ed k with
  | none => simp [h1, hr]
  | some e =>
    rw [h1] at h
    simp at h
    simp [h1, h, hr]

/-- C1: the resolved value equals the overlay override when that field is
defined, else the raw extracted value when the key is present in the
raw-value map, else 0 — for both periods. -/
theorem getCurrentValue_resolution_policy :
    ∀ (ed : EditedValues) (raw : RawValues) (k : String),
      (getCurrentValue ed raw k =
        match getOverrideField ed k false with
        | some v => v
        | none =>
          match raw k with
          | some r => r.value
          | none => 0) ∧
      (getPriorValue ed raw k =
        match getOverrideField ed k true with
        | some v => v
        | none =>
          match raw k with
          | some r => r.value_prior
          | none => 0) := by
  intro ed raw k
  unfold getCurrentValue getPriorValue getOverrideField
  cases h1 : ed k with
  | none => cases h2 : raw k <;> simp
  | some e =>
    cases h2 : raw k with
    | none => cases h3 : e.value <;> cases h4 : e.value_prior <;> simp [h3, h4]
    | some r => cases h3 : e.value <;> cases h4 : e.value_prior <;> simp [h3, h4]

/-- C3: `isEdited` is true iff an overlay entry exists with the period's
override field defined, a raw record exists, and the two values differ; in
particular it is false when no raw record exists. -/
theorem isEdited_iff_override_differs :
    ∀ (ed : EditedValues) (raw : RawValues) (k : String) (isPrior : Bool),
      isEdited ed raw k isPrior = true ↔
        ∃ e r v, ed k = some e ∧ raw k = some r ∧
          (if isPrior then e.value_prior else e.value) = some v ∧
          v ≠ (if isPrior then r.value_prior else r.value) := by
  intro ed raw k isPrior
  unfold isEdited
  cases h1 : ed k with
  | none => simp [h1]
  | some e =>
    cases h2 : raw k with
    | none => simp [h1, h2]
    | some r =>
      cases isPrior with
      | false => cases h3 : e.value <;> simp [h1, h2, h3]
      | true => cases h3 : e.value_prior <;> simp [h1, h2, h3]

/-- C8: the resolvers are total; for a key absent from both the overlay and
the raw-value map they return the 0 sentinel, for both periods. -/
theorem resolver_missing_defaults_zero (ed : EditedValues) (raw : RawValues)
    (k : String) (h1 : ed k = none) (h2 : raw k = none) :
    getCurrentValue ed raw k = 0 ∧ getPriorValue ed raw k = 0 := by
  simp [getCurrentValue, getPriorValue, h1, h2]

theorem resolver_missing_defaults_zero_witness :
    (emptyOverlay "revenue" = none ∧ emptyRaw "revenue" = none) ∧
    getCurrentValue emptyOverlay emptyRaw "revenue" = 0 ∧
    getPriorValue emptyOverlay emptyRaw "revenue" = 0 :=
  ⟨⟨rfl, rfl⟩, resolver_missing_defaults_zero emptyOverlay emptyRaw "revenue" rfl rfl⟩

/-- C10: resetting a key that has no overlay entry returns the overlay map
unchanged — the very same map, with no entry created. -/
theorem handleResetValue_absent_noop (ed : EditedValues) (k : String)
    (isPrior : Bool) (h : ed k = none) :
    handleResetValue k isPrior ed = ed := by
  unfold handleResetValue
  rw [h]

theorem handleResetValue_absent_noop_witness :
    emptyOverlay "cash" = none ∧
    handleResetValue "cash" false emptyOverlay = emptyOverlay :=
  ⟨rfl, handleResetValue_absent_noop emptyOverlay "cash" false rfl⟩

/-- C2 counterexample: clearing both overrides of `cash` by passing
`undefined` through `handleValueChange` (the commit path used by
`handleBlur` for empty or unchanged input) leaves a degenerate entry in the
overlay map, so the claim fails for that clearing operation. -/
theorem clear_both_by_valueChange_keeps_entry :
    handleValueChange "cash" none true
      (handleValueChange "cash" none false overlayBoth) "cash" ≠ none := by
  simp [handleValueChange, overlayBoth]

/-- C2 amended: once one period's override of a key is already undefined
(cleared by any means), clearing the other period via `handleResetValue`
removes the overlay entry entirely.  (Clearing the second field through
`handleValueChange` with `undefined` instead leaves a degenerate entry.) -/
theorem cleared_pair_reset_removes_entry (ed : EditedValues) (k : String)
    (isPrior : Bool) (h : getOverrideField ed k (!isPrior) = none) :
    handleResetValue k isPrior ed k = none := by
  unfold getOverrideField at h
  unfold handleResetValue
  cases h1 : ed k with
  | none => exact h1
  | some e =>
    rw [h1] at h
    simp at h
    cases isPrior with
    | false => simp at h; simp [h]
    | true => simp at h; simp [h]

theorem cleared_pair_reset_removes_entry_witness :
    getOverrideField overlayCurOnly "cash" (!false) = none ∧
    handleResetValue "cash" false overlayCurOnly "cash" = none :=
  ⟨by simp [getOverrideField, overlayCurOnly],
   cleared_pair_reset_removes_entry overlayCurOnly "cash" false
     (by simp [getOverrideField, overlayCurOnly])⟩

/-- C4 counterexample: committing an empty input (for which `parseFloat`
yields `NaN`) through `handleBlur` does change the overlay map — it passes
`undefined` to `handleValueChange`, which creates a degenerate entry for the
key, so the map after is not exactly the map before. -/
theorem empty_text_commit_alters_overlay :
    handleBlur parseNone "" 0 "cash" false emptyOverlay ≠ emptyOverlay := by
  intro h
  have h2 := congrFun h "cash"
  simp [handleBlur, handleValueChange, parseNone, emptyOverlay] at h2

/-- C4 amended: committing text that does not parse as a number inserts no
override and leaves the overlay map exactly unchanged — unconditionally in
`finishEditing`, and in `handleBlur` provided the text is non-empty (an
empty text instead clears the period's override field). -/
theorem nonNumeric_commit_leaves_overlay (parseF : String → Option ℚ)
    (txt : String) (orig : ℚ) (k : String) (isPrior : Bool)
    (ed : EditedValues) (hn : parseF txt = none) :
    finishEditing parseF txt k isPrior ed = ed ∧
    (txt ≠ "" → handleBlur parseF txt orig k isPrior ed = ed) := by
  constructor
  · simp [finishEditing, hn]
  · intro hne
    simp [handleBlur, hn, hne]

theorem nonNumeric_commit_leaves_overlay_witness :
    parseNone "abc" = none ∧ ("abc" : String) ≠ "" ∧
    finishEditing parseNone "abc" "cash" false emptyOverlay = emptyOverlay ∧
    handleBlur parseNone "abc" 0 "cash" false emptyOverlay = emptyOverlay :=
  ⟨rfl, by decide,
   (nonNumeric_commit_leaves_overlay parseNone "abc" 0 "cash" false
      emptyOverlay rfl).1,
   (nonNumeric_commit_leaves_overlay parseNone "abc" 0 "cash" false
      emptyOverlay rfl).2 (by decide)⟩

/-- C5: for a key with a raw record, setting a current-period override via
`handleValueChange` and then clearing it via `handleResetValue` restores
resolution to the original raw value, and the resulting overlay has no
defined current-period `value` field for that key. -/
theorem set_then_reset_restores_raw (ed : EditedValues) (raw : RawValues)
    (k : String) (r : ExtractedValue) (v : ℚ) (hr : raw k = some r) :
    getCurrentValue
      (handleResetValue k false (handleValueChange k (some v) false ed)) raw k
      = r.value ∧
    getOverrideField
      (handleResetValue k false (handleValueChange k (some v) false ed)) k false
      = none := by
  refine ⟨?_, reset_clears_field _ k false⟩
  exact getCurrentValue_no_override _ raw k r (reset_clears_field _ k false) hr

theorem set_then_reset_restores_raw_witness :
    rawCash "cash" = some { metric_key := "cash", value := 5, value_prior := 7 } ∧
    getCurrentValue
      (handleResetValue "cash" false
        (handleValueChange "cash" (some 999) false emptyOverlay)) rawCash "cash"
      = 5 ∧
    getOverrideField
      (handleResetValue "cash" false
        (handleValueChange "cash" (some 999) false emptyOverlay)) "cash" false
      = none :=
  ⟨rfl, set_then_reset_restores_raw emptyOverlay rawCash "cash"
    { metric_key := "cash", value := 5, value_prior := 7 } 999 rfl⟩

/-- C6: `handleResetValue` on one period of a key leaves the paired period's
override field of that key, and the overlay entries of every other key,
unchanged. -/
theorem handleResetValue_frame (ed : EditedValues) (k : String)
    (isPrior : Bool) :
    getOverrideField (handleResetValue k isPrior ed) k (!isPrior)
      = getOverrideField ed k (!isPrior) ∧
    ∀ k2, k2 ≠ k → handleResetValue k isPrior ed k2 = ed k2 := by
  unfold getOverrideField handleResetValue
  cases h1 : ed k with
  | none => simp [h1]
  | some e =>
    cases isPrior with
    | false =>
      by_cases hv : e.value_prior = none
      · exact ⟨by simp [hv], fun k2 hk2 => by simp [hv, hk2]⟩
      · exact ⟨by simp [hv], fun k2 hk2 => by simp [hv, hk2]⟩
    | true =>
      by_cases hv : e.value = none
      · exact ⟨by simp [hv], fun k2 hk2 => by simp [hv, hk2]⟩
      · exact ⟨by simp [hv], fun k2 hk2 => by simp [hv, hk2]⟩

theorem handleResetValue_frame_witness :
    ("revenue" : String) ≠ "cash" ∧
    getOverrideField (handleResetValue "cash" false overlayBoth) "cash" (!false)
      = getOverrideField overlayBoth "cash" (!false) ∧
    handleResetValue "cash" false overlayBoth "revenue" = overlayBoth "revenue" :=
  ⟨by decide,
   (handleResetValue_frame overlayBoth "cash" false).1,
   (handleResetValue_frame overlayBoth "cash" false).2 "revenue" (by decide)⟩

/-- C7: `handleValueChange` on one period of a key is a field-wise update:
it preserves the paired period's override field of that key and the overlay
entries of every other key. -/
theorem handleValueChange_frame (ed : EditedValues) (k : String)
    (v : Option ℚ) (isPrior : Bool) :
    getOverrideField (handleValueChange k v isPrior ed) k (!isPrior)
      = getOverrideField ed k (!isPrior) ∧
    ∀ k2, k2 ≠ k → handleValueChange k v isPrior ed k2 = ed k2 := by
  unfold getOverrideField handleValueChange
  constructor
  · cases h1 : ed k with
    | none => cases isPrior <;> simp [h1]
    | some e => cases isPrior <;> simp [h1]
  · intro k2 hk2
    simp [hk2]

theorem handleValueChange_frame_witness :
    ("revenue" : String) ≠ "cash" ∧
    getOverrideField (handleValueChange "cash" (some 3) false overlayBoth)
      "cash" (!false) = getOverrideField overlayBoth "cash" (!false) ∧
    handleValueChange "cash" (some 3) false overlayBoth "revenue"
      = overlayBoth "revenue" :=
  ⟨by decide,
   (handleValueChange_frame overlayBoth "cash" (some 3) false).1,
   (handleValueChange_frame overlayBoth "cash" (some 3) false).2 "revenue"
     (by decide)⟩

/-- C9: committing an input via `handleBlur` whose parsed value equals the
original raw value, or whose text is empty (a `NaN` parse), clears the
override field for that period — it passes `undefined` rather than storing
an override — so resolution afterwards returns the raw value for that key
and period. -/
theorem commit_equal_or_empty_clears_override (parseF : String → Option ℚ)
    (txt : String) (ed : EditedValues) (raw : RawValues) (k : String)
    (isPrior : Bool) (r : ExtractedValue) (hr : raw k = some r)
    (hcase : parseF txt = some (if isPrior then r.value_prior else r.value) ∨
             (txt = "" ∧ parseF txt = none)) :
    getOverrideField
      (handleBlur parseF txt (if isPrior then r.value_prior else r.value)
        k isPrior ed) k isPrior = none ∧
    (if isPrior then
      getPriorValue
        (handleBlur parseF txt (if isPrior then r.value_prior else r.value)
          k isPrior ed) raw k = r.value_prior
    else
      getCurrentValue
        (handleBlur parseF txt (if isPrior then r.value_prior else r.value)
          k isPrior ed) raw k = r.value) := by
  have hblur : handleBlur parseF txt (if isPrior then r.value_prior else r.value)
      k isPrior ed = handleValueChange k none isPrior ed := by
    rcases hcase with hp | ⟨he, hp⟩
    · simp [handleBlur, hp]
    · subst he
      simp [handleBlur, hp]
  rw [hblur]
  have hfield := valueChange_sets_field ed k none isPrior
  refine ⟨hfield, ?_⟩
  cases isPrior with
  | false =>
    simpa using getCurrentValue_no_override _ raw k r hfield hr
  | true =>
    simpa using getPriorValue_no_override _ raw k r hfield hr

theorem commit_equal_or_empty_clears_override_witness :
    rawCash "cash" = some { metric_key := "cash", value := 5, value_prior := 7 } ∧
    parseFive "5" = some 5 ∧
    getOverrideField (handleBlur parseFive "5" 5 "cash" false overlayBoth)
      "cash" false = none ∧
    getCurrentValue (handleBlur parseFive "5" 5 "cash" false overlayBoth)
      rawCash "cash" = 5 := by
  have h := commit_equal_or_empty_clears_override parseFive "5" overlayBoth
    rawCash "cash" false { metric_key := "cash", value := 5, value_prior := 7 }
    rfl (Or.inl rfl)
  exact ⟨rfl, rfl, by simpa using h.1, by simpa using h.2⟩
